import Mathlib

/-!
Shallow embedding of the spatial-hash broad phase of ipc-toolkit
(src/spatial_hash/hash_grid.hpp and hash_grid.cpp), together with proofs
about its stated properties.

Modelling conventions:
* Doubles are modelled as rationals.
* Both 2D and 3D grids are embedded in one representation: vectors always
  carry three components, and a 2D instance keeps every z component at 0.
  Each AABB and each grid records its dimensionality (2 or 3), and the
  operations branch on it exactly where the C++ code branches on the
  runtime size of its Eigen ArrayMax3 values.
* Eigen cast to int on a double truncates toward zero; ratTrunc below is
  that truncation on rationals.
* The C++ key of a HashItem is a 32-bit int while hash arithmetic happens
  on wider operands; the narrowing on storage is modelled by toInt32.
* TBB parallel loops that append into thread-local buffers and then merge
  serially are modelled as the equivalent sequential left-to-right loop,
  and tbb parallel_sort is modelled as insertionSort with the reflexive
  closure of the strict comparison used by the source.
* The candidate types (EdgeVertexCandidate and friends) live in
  collision_candidate.hpp, which is not part of the given sources; a
  candidate is modelled from the spec as a pair of integer ids, ordered
  lexicographically and compared for equality componentwise, matching the
  spec sentences that candidate lists are totally ordered and
  duplicate-free on return.
-/

/-- Truncation toward zero of a rational, the effect of an Eigen cast from
double to int. -/
def ratTrunc (q : ℚ) : ℤ := if 0 ≤ q then ⌊q⌋ else ⌈q⌉

/-- Reduction of an integer to a 32-bit signed machine word, the effect of
storing the 64-bit hash value in the int key field of a HashItem. -/
def toInt32 (n : ℤ) : ℤ := (n + 2 ^ 31) % 2 ^ 32 - 2 ^ 31

/-- The closed integer interval from lo to hi as a list, the index range of
a C style for loop from lo while at most hi. -/
def intRange (lo hi : ℤ) : List ℤ :=
  (List.range (hi + 1 - lo).toNat).map (fun n => lo + n)

/-- A 3-component vector of rationals; 2D data keeps z at 0. -/
structure Vec3 where
  x : ℚ
  y : ℚ
  z : ℚ
deriving DecidableEq

/-- Componentwise cwiseMin of two vectors. -/
def vmin (a b : Vec3) : Vec3 := ⟨min a.x b.x, min a.y b.y, min a.z b.z⟩

/-- Componentwise cwiseMax of two vectors. -/
def vmax (a b : Vec3) : Vec3 := ⟨max a.x b.x, max a.y b.y, max a.z b.z⟩

/-- Subtract a scalar from the stored components: both components in 2D,
all three in 3D (array minus scalar in Eigen touches only the components
the array actually has). -/
def vsubScalar (d : ℕ) (v : Vec3) (r : ℚ) : Vec3 :=
  ⟨v.x - r, v.y - r, if d = 3 then v.z - r else v.z⟩

/-- Add a scalar to the stored components, as in vsubScalar. -/
def vaddScalar (d : ℕ) (v : Vec3) (r : ℚ) : Vec3 :=
  ⟨v.x + r, v.y + r, if d = 3 then v.z + r else v.z⟩

/-- Axis aligned bounding box, with its dimensionality (2 or 3). The C++
class caches half_extent and center; here they are the derived functions
halfExtent and center, which agree with the cached values. -/
structure AABB where
  dim : ℕ
  min : Vec3
  max : Vec3
deriving DecidableEq

/-- Half extent of a box, as cached by the AABB constructor. -/
def AABB.halfExtent (a : AABB) : Vec3 :=
  ⟨(a.max.x - a.min.x) / 2, (a.max.y - a.min.y) / 2, (a.max.z - a.min.z) / 2⟩

/-- Center of a box, as cached by the AABB constructor. -/
def AABB.center (a : AABB) : Vec3 :=
  ⟨a.min.x + (a.max.x - a.min.x) / 2, a.min.y + (a.max.y - a.min.y) / 2,
    a.min.z + (a.max.z - a.min.z) / 2⟩

/-- AABB::are_overlapping from hash_grid.cpp: componentwise center minus
center against summed half extents, skipping z when the boxes are 2D. -/
def are_overlapping (a b : AABB) : Bool :=
  decide (|a.center.x - b.center.x| ≤ a.halfExtent.x + b.halfExtent.x) &&
  decide (|a.center.y - b.center.y| ≤ a.halfExtent.y + b.halfExtent.y) &&
  (a.dim == 2 ||
    decide (|a.center.z - b.center.z| ≤ a.halfExtent.z + b.halfExtent.z))

/-- An entry of the hash grid: cell key, element id, and the element's
inflated swept box, as in hash_grid.hpp. -/
structure HashItem where
  key : ℤ
  id : ℤ
  aabb : AABB
deriving DecidableEq

/-- Reflexive closure of the HashItem operator<: ascending key, ties broken
by ascending id. -/
def itemLE (a b : HashItem) : Prop :=
  a.key < b.key ∨ (a.key = b.key ∧ a.id ≤ b.id)

instance : DecidableRel itemLE := fun a b => by
  unfold itemLE; infer_instance

/-- The model of tbb parallel_sort on a bucket of hash items. -/
def sortItems (l : List HashItem) : List HashItem := List.insertionSort itemLE l

/-- State of a HashGrid: dimensionality, cell size, domain box, per-axis
cell counts (gz is unused in 2D and kept at 1), and the three buckets. -/
structure HashGrid where
  dim : ℕ
  cellSize : ℚ
  domainMin : Vec3
  domainMax : Vec3
  gx : ℤ
  gy : ℤ
  gz : ℤ
  vertexItems : List HashItem
  edgeItems : List HashItem
  faceItems : List HashItem

/-- HashGrid::hash as the ideal integer value of the encoding. The C++
computes this expression in 32-bit int arithmetic (the return type long
only widens the already wrapped value) and the HashItem key field is an
int, so the value the program actually keeps is the 32-bit reduction of
this ideal value; the model applies that reduction with toInt32 at the
storage point in addElement, and the two agree exactly on every grid with
at most 2 to the 31st cells. -/
def HashGrid.hash (g : HashGrid) (x y z : ℤ) : ℤ :=
  (z * g.gy + y) * g.gx + x

/-- The precondition checked by the assertion at the top of
HashGrid::resize, namely cellSize != 0.0. -/
def resizeCheck (cellSize : ℚ) : Bool := decide (cellSize ≠ 0)

/-- One axis of the grid size computed by resize:
ceil((max - min) / cellSize) then clamped below by 1. -/
def gsAxis (mn mx cellSize : ℚ) : ℤ := max ⌈(mx - mn) / cellSize⌉ 1

/-- HashGrid::resize(min, max, cellSize): clears the buckets and records
the domain, cell size and grid size. -/
def HashGrid.resize (g : HashGrid) (mn mx : Vec3) (cellSize : ℚ) : HashGrid :=
  { dim := g.dim
    cellSize := cellSize
    domainMin := mn
    domainMax := mx
    gx := gsAxis mn.x mx.x cellSize
    gy := gsAxis mn.y mx.y cellSize
    gz := if g.dim = 3 then gsAxis mn.z mx.z cellSize else 1
    vertexItems := []
    edgeItems := []
    faceItems := [] }

/-- Eigen array max(0).min(gridSize - 1) applied to one cell index. -/
def clamp01 (v gsize : ℤ) : ℤ := min (max v 0) (gsize - 1)

/-- HashGrid::addElement: compute the clamped integer cell range covered by
the box and emit one HashItem per covered cell, x outermost as in the
source loops. The key is narrowed to 32 bits on storage. -/
def HashGrid.addElement (g : HashGrid) (aabb : AABB) (id : ℤ)
    (items : List HashItem) : List HashItem :=
  let lx := clamp01 (ratTrunc ((aabb.min.x - g.domainMin.x) / g.cellSize)) g.gx
  let ly := clamp01 (ratTrunc ((aabb.min.y - g.domainMin.y) / g.cellSize)) g.gy
  let hx := clamp01 (ratTrunc ((aabb.max.x - g.domainMin.x) / g.cellSize)) g.gx
  let hy := clamp01 (ratTrunc ((aabb.max.y - g.domainMin.y) / g.cellSize)) g.gy
  let lz := if g.dim = 3
    then clamp01 (ratTrunc ((aabb.min.z - g.domainMin.z) / g.cellSize)) g.gz
    else 0
  let hz := if g.dim = 3
    then clamp01 (ratTrunc ((aabb.max.z - g.domainMin.z) / g.cellSize)) g.gz
    else 0
  items ++ (intRange lx hx).flatMap (fun x =>
    (intRange ly hy).flatMap (fun y =>
      (intRange lz hz).map (fun z =>
        ⟨toInt32 (g.hash x y z), id, aabb⟩)))

/-- calculate_vertex_extents followed by the inflation done in
HashGrid::addVertex: the swept box of a moving point, dilated by r. -/
def vertexAABB (d : ℕ) (t0 t1 : Vec3) (r : ℚ) : AABB :=
  ⟨d, vsubScalar d (vmin t0 t1) r, vaddScalar d (vmax t0 t1) r⟩

/-- calculate_edge_extents followed by inflation: the swept box of a moving
segment, from its four control points, dilated by r. -/
def edgeAABB (d : ℕ) (e00 e10 e01 e11 : Vec3) (r : ℚ) : AABB :=
  ⟨d, vsubScalar d (vmin (vmin (vmin e00 e10) e01) e11) r,
    vaddScalar d (vmax (vmax (vmax e00 e10) e01) e11) r⟩

/-- calculate_face_extents followed by inflation: the swept box of a moving
triangle, from its six control points, dilated by r. -/
def faceAABB (d : ℕ) (f00 f10 f20 f01 f11 f21 : Vec3) (r : ℚ) : AABB :=
  ⟨d, vsubScalar d (vmin (vmin (vmin (vmin (vmin f00 f10) f20) f01) f11) f21) r,
    vaddScalar d (vmax (vmax (vmax (vmax (vmax f00 f10) f20) f01) f11) f21) r⟩

/-- The protected HashGrid::addVertex overload that appends into a given
item list. -/
def HashGrid.addVertexTo (g : HashGrid) (t0 t1 : Vec3) (index : ℤ)
    (items : List HashItem) (r : ℚ) : List HashItem :=
  g.addElement (vertexAABB g.dim t0 t1 r) index items

/-- The protected HashGrid::addEdge overload that appends into a given item
list. -/
def HashGrid.addEdgeTo (g : HashGrid) (e00 e10 e01 e11 : Vec3) (index : ℤ)
    (items : List HashItem) (r : ℚ) : List HashItem :=
  g.addElement (edgeAABB g.dim e00 e10 e01 e11 r) index items

/-- The protected HashGrid::addFace overload that appends into a given item
list. -/
def HashGrid.addFaceTo (g : HashGrid) (f00 f10 f20 f01 f11 f21 : Vec3)
    (index : ℤ) (items : List HashItem) (r : ℚ) : List HashItem :=
  g.addElement (faceAABB g.dim f00 f10 f20 f01 f11 f21 r) index items

/-- Row i of a vertex position matrix. -/
def vertexAt (V : List Vec3) (i : ℤ) : Vec3 := V.getD i.toNat ⟨0, 0, 0⟩

/-- Row i of the edge matrix as its two vertex indices. -/
def edgeRow (E : List (ℤ × ℤ)) (i : ℤ) : ℤ × ℤ := E.getD i.toNat (0, 0)

/-- Row i of the face matrix as its three vertex indices. -/
def faceRow (F : List (ℤ × ℤ × ℤ)) (i : ℤ) : ℤ × ℤ × ℤ :=
  F.getD i.toNat (0, 0, 0)

/-- HashGrid::addVertices: one addVertex per row, ids contiguous from 0;
the thread-local buffers and the serial merge make the net effect this
sequential append. -/
def HashGrid.addVertices (g : HashGrid) (V0 V1 : List Vec3) (r : ℚ) :
    HashGrid :=
  { g with
    vertexItems := (List.range V0.length).foldl
      (fun acc i => g.addVertexTo (vertexAt V0 i) (vertexAt V1 i) i acc r)
      g.vertexItems }

/-- HashGrid::addEdges: one addEdge per edge row, ids contiguous from 0. -/
def HashGrid.addEdges (g : HashGrid) (V0 V1 : List Vec3) (E : List (ℤ × ℤ))
    (r : ℚ) : HashGrid :=
  { g with
    edgeItems := (List.range E.length).foldl
      (fun acc i =>
        let e := edgeRow E i
        g.addEdgeTo (vertexAt V0 e.1) (vertexAt V0 e.2)
          (vertexAt V1 e.1) (vertexAt V1 e.2) i acc r)
      g.edgeItems }

/-- HashGrid::addFaces: one addFace per face row, ids contiguous from 0. -/
def HashGrid.addFaces (g : HashGrid) (V0 V1 : List Vec3)
    (F : List (ℤ × ℤ × ℤ)) (r : ℚ) : HashGrid :=
  { g with
    faceItems := (List.range F.length).foldl
      (fun acc i =>
        let f := faceRow F i
        g.addFaceTo (vertexAt V0 f.1) (vertexAt V0 f.2.1) (vertexAt V0 f.2.2)
          (vertexAt V1 f.1) (vertexAt V1 f.2.1) (vertexAt V1 f.2.2) i acc r)
      g.faceItems }

/-- One column pass of the vertex_to_min_edge precomputation: the loop over
edge rows for a fixed column, taking the min of the running value and the
row index at each occurrence of v. -/
def v2meColAux (v : ℤ) (sel : ℤ × ℤ → ℤ) :
    List (ℤ × ℤ) → ℕ → ℕ → ℕ
  | [], _, acc => acc
  | e :: t, i, acc => v2meColAux v sel t (i + 1) (if sel e = v then min acc i else acc)

/-- vertex_to_min_edge[v] after the serial column-major scan of E in
HashGrid::addVerticesFromEdges: initialized to rows + 1, then the column-0
pass, then the column-1 pass. -/
def v2me (E : List (ℤ × ℤ)) (v : ℤ) : ℕ :=
  v2meColAux v Prod.snd E 0 (v2meColAux v Prod.fst E 0 (E.length + 1))

/-- The loop body structure of the parallel pass of addVerticesFromEdges,
accumulating hash items: for row index i and each column j in order, add
vertex E(i, j) when its recorded minimal edge is i. -/
def addVFEItemsAux (g : HashGrid) (V0 V1 : List Vec3) (r : ℚ)
    (Eall : List (ℤ × ℤ)) : List (ℤ × ℤ) → ℕ → List HashItem → List HashItem
  | [], _, acc => acc
  | e :: rest, i, acc =>
    let acc1 := if v2me Eall e.1 = i
      then g.addVertexTo (vertexAt V0 e.1) (vertexAt V1 e.1) e.1 acc r
      else acc
    let acc2 := if v2me Eall e.2 = i
      then g.addVertexTo (vertexAt V0 e.2) (vertexAt V1 e.2) e.2 acc1 r
      else acc1
    addVFEItemsAux g V0 V1 r Eall rest (i + 1) acc2

/-- HashGrid::addVerticesFromEdges. -/
def HashGrid.addVerticesFromEdges (g : HashGrid) (V0 V1 : List Vec3)
    (E : List (ℤ × ℤ)) (r : ℚ) : HashGrid :=
  { g with vertexItems := addVFEItemsAux g V0 V1 r E E 0 g.vertexItems }

/-- The sequence of vertex indices passed to addVertex by
addVerticesFromEdges, in call order: the same guards as addVFEItemsAux,
recording the index instead of appending the items. -/
def addVFECallsAux (Eall : List (ℤ × ℤ)) : List (ℤ × ℤ) → ℕ → List ℤ
  | [], _ => []
  | e :: rest, i =>
    (if v2me Eall e.1 = i then [e.1] else []) ++
      (if v2me Eall e.2 = i then [e.2] else []) ++
      addVFECallsAux Eall rest (i + 1)

/-- The addVertex call sequence of HashGrid::addVerticesFromEdges on E. -/
def addVFECalls (E : List (ℤ × ℤ)) : List ℤ := addVFECallsAux E E 0

/-- Modelled from the spec: a candidate pair as stored in the caller
provided output vector. The concrete candidate classes and their operator<
and operator== live in collision_candidate.hpp, which is not among the
sources; per the spec a candidate is the tuple of the two element ids and
candidate lists are totally ordered, so the order is lexicographic on the
id pair and equality is componentwise. -/
def candLE (a b : ℤ × ℤ) : Prop :=
  a.1 < b.1 ∨ (a.1 = b.1 ∧ a.2 ≤ b.2)

instance : DecidableRel candLE := fun a b => by
  unfold candLE; infer_instance

instance : IsTotal (ℤ × ℤ) candLE := by
  constructor
  intro a b
  rcases lt_trichotomy a.1 b.1 with h | h | h
  · exact Or.inl (Or.inl h)
  · rcases le_total a.2 b.2 with h2 | h2
    · exact Or.inl (Or.inr ⟨h, h2⟩)
    · exact Or.inr (Or.inr ⟨h.symm, h2⟩)
  · exact Or.inr (Or.inl h)

instance : IsTrans (ℤ × ℤ) candLE := by
  constructor
  intro a b c hab hbc
  rcases hab with h | ⟨he, h2⟩
  · rcases hbc with h' | ⟨he', _⟩
    · exact Or.inl (h.trans h')
    · exact Or.inl (he' ▸ h)
  · rcases hbc with h' | ⟨he', h2'⟩
    · exact Or.inl (he ▸ h')
    · exact Or.inr ⟨he.trans he', h2.trans h2'⟩

/-- std::unique on a vector: drop each element equal to its predecessor. -/
def dedupConsec : List (ℤ × ℤ) → List (ℤ × ℤ)
  | [] => []
  | [a] => [a]
  | a :: b :: t => if a = b then dedupConsec (b :: t) else a :: dedupConsec (b :: t)

/-- The tail of every getPairs overload: parallel_sort the whole candidate
vector, then erase consecutive duplicates with std::unique. -/
def sortDedup (l : List (ℤ × ℤ)) : List (ℤ × ℤ) :=
  dedupConsec (List.insertionSort candLE l)

/-- The body of the inner while loop of the two-bucket getPairs, run from
one position of items1: as long as the key matches the current item0, emit
the id pair when neither filter fires and the carried boxes overlap, and
step forward; stop at the first key mismatch. Returns the emitted pairs
and the remaining suffix of items1 at which j stops. -/
def innerScan (isEnd isGroup : ℤ → ℤ → Bool) (item0 : HashItem) :
    List HashItem → List (ℤ × ℤ) × List HashItem
  | [] => ([], [])
  | item1 :: t =>
    if item1.key = item0.key then
      let rest := innerScan isEnd isGroup item0 t
      ((if !isEnd item0.id item1.id && !isGroup item0.id item1.id
            && are_overlapping item0.aabb item1.aabb
        then [(item0.id, item1.id)] else []) ++ rest.1, rest.2)
    else ([], item1 :: t)

/-- The outer while loop of the two-bucket getPairs: the first list is
items0 from index i on, the second is items1 from j_start on, acc is the
candidate vector so far. j_start advances past the scanned run only when
the key of items0 is about to change (the last two patterns) or items0 is
exhausted (third pattern, where the loop then stops anyway), exactly as in
the source; the loop stops when either list is exhausted. -/
def scanPairs (isEnd isGroup : ℤ → ℤ → Bool) :
    List HashItem → List HashItem → List (ℤ × ℤ) → List (ℤ × ℤ)
  | [], _, acc => acc
  | _ :: _, [], acc => acc
  | [item0], item1 :: t1, acc =>
    acc ++ (innerScan isEnd isGroup item0 (item1 :: t1)).1
  | item0 :: item0b :: t0b, item1 :: t1, acc =>
    let r := innerScan isEnd isGroup item0 (item1 :: t1)
    let acc2 := acc ++ r.1
    if item0b.key = item0.key
    then scanPairs isEnd isGroup (item0b :: t0b) (item1 :: t1) acc2
    else scanPairs isEnd isGroup (item0b :: t0b) r.2 acc2

/-- The two-bucket getPairs of hash_grid.cpp: sort both item lists, run the
two index scan appending into the caller candidate vector, then sort the
whole vector and remove consecutive duplicates. -/
def getPairsBi (isEnd isGroup : ℤ → ℤ → Bool)
    (items0 items1 : List HashItem) (candidates : List (ℤ × ℤ)) :
    List (ℤ × ℤ) :=
  sortDedup (scanPairs isEnd isGroup (sortItems items0) (sortItems items1)
    candidates)

/-- The inner for loop of the single-bucket getPairs: scan forward from the
successor of i while the key matches, emitting filtered pairs, and stop at
the first mismatch. -/
def emitSelf (isEnd isGroup : ℤ → ℤ → Bool) (item0 : HashItem) :
    List HashItem → List (ℤ × ℤ)
  | [] => []
  | item1 :: t =>
    if item1.key = item0.key then
      (if !isEnd item0.id item1.id && !isGroup item0.id item1.id
            && are_overlapping item0.aabb item1.aabb
        then [(item0.id, item1.id)] else []) ++ emitSelf isEnd isGroup item0 t
    else []

/-- The outer for loop of the single-bucket getPairs. -/
def scanSelf (isEnd isGroup : ℤ → ℤ → Bool) :
    List HashItem → List (ℤ × ℤ)
  | [] => []
  | item0 :: t => emitSelf isEnd isGroup item0 t ++ scanSelf isEnd isGroup t

/-- The single-bucket getPairs of hash_grid.cpp (the serial self join kept
by the source): sort the items, append the scanned pairs to the caller
candidate vector, then sort the whole vector and remove consecutive
duplicates. -/
def getPairsSelf (isEnd isGroup : ℤ → ℤ → Bool) (items : List HashItem)
    (candidates : List (ℤ × ℤ)) : List (ℤ × ℤ) :=
  sortDedup (candidates ++ scanSelf isEnd isGroup (sortItems items))

/-- Entry v of the group_ids vector. -/
def groupAt (groupIds : List ℤ) (v : ℤ) : ℤ := groupIds.getD v.toNat 0

/-- The is_endpoint lambda of getVertexEdgePairs. -/
def isEndpointEV (E : List (ℤ × ℤ)) (ei vi : ℤ) : Bool :=
  (edgeRow E ei).1 == vi || (edgeRow E ei).2 == vi

/-- The is_same_group lambda of getVertexEdgePairs, including its
check_groups guard on a non-empty group_ids. -/
def isSameGroupEV (E : List (ℤ × ℤ)) (groupIds : List ℤ) (ei vi : ℤ) : Bool :=
  decide (0 < groupIds.length) &&
    (groupAt groupIds vi == groupAt groupIds (edgeRow E ei).1 ||
      groupAt groupIds vi == groupAt groupIds (edgeRow E ei).2)

/-- The is_endpoint lambda of getEdgeEdgePairs: any shared endpoint. -/
def isEndpointEE (E : List (ℤ × ℤ)) (ei ej : ℤ) : Bool :=
  (edgeRow E ei).1 == (edgeRow E ej).1 || (edgeRow E ei).1 == (edgeRow E ej).2 ||
  (edgeRow E ei).2 == (edgeRow E ej).1 || (edgeRow E ei).2 == (edgeRow E ej).2

/-- The is_same_group lambda of getEdgeEdgePairs. -/
def isSameGroupEE (E : List (ℤ × ℤ)) (groupIds : List ℤ) (ei ej : ℤ) : Bool :=
  decide (0 < groupIds.length) &&
    (groupAt groupIds (edgeRow E ei).1 == groupAt groupIds (edgeRow E ej).1 ||
     groupAt groupIds (edgeRow E ei).1 == groupAt groupIds (edgeRow E ej).2 ||
     groupAt groupIds (edgeRow E ei).2 == groupAt groupIds (edgeRow E ej).1 ||
     groupAt groupIds (edgeRow E ei).2 == groupAt groupIds (edgeRow E ej).2)

/-- The is_endpoint lambda of getEdgeFacePairs: the edge and the face share
a vertex. -/
def isEndpointEF (E : List (ℤ × ℤ)) (F : List (ℤ × ℤ × ℤ)) (ei fi : ℤ) : Bool :=
  (edgeRow E ei).1 == (faceRow F fi).1 || (edgeRow E ei).1 == (faceRow F fi).2.1 ||
  (edgeRow E ei).1 == (faceRow F fi).2.2 || (edgeRow E ei).2 == (faceRow F fi).1 ||
  (edgeRow E ei).2 == (faceRow F fi).2.1 || (edgeRow E ei).2 == (faceRow F fi).2.2

/-- The is_same_group lambda of getEdgeFacePairs. -/
def isSameGroupEF (E : List (ℤ × ℤ)) (F : List (ℤ × ℤ × ℤ))
    (groupIds : List ℤ) (ei fi : ℤ) : Bool :=
  decide (0 < groupIds.length) &&
    (groupAt groupIds (edgeRow E ei).1 == groupAt groupIds (faceRow F fi).1 ||
     groupAt groupIds (edgeRow E ei).1 == groupAt groupIds (faceRow F fi).2.1 ||
     groupAt groupIds (edgeRow E ei).1 == groupAt groupIds (faceRow F fi).2.2 ||
     groupAt groupIds (edgeRow E ei).2 == groupAt groupIds (faceRow F fi).1 ||
     groupAt groupIds (edgeRow E ei).2 == groupAt groupIds (faceRow F fi).2.1 ||
     groupAt groupIds (edgeRow E ei).2 == groupAt groupIds (faceRow F fi).2.2)

/-- The is_endpoint lambda of getFaceVertexPairs: the vertex is a corner of
the face. -/
def isEndpointFV (F : List (ℤ × ℤ × ℤ)) (fi vi : ℤ) : Bool :=
  vi == (faceRow F fi).1 || vi == (faceRow F fi).2.1 || vi == (faceRow F fi).2.2

/-- The is_same_group lambda of getFaceVertexPairs. -/
def isSameGroupFV (F : List (ℤ × ℤ × ℤ)) (groupIds : List ℤ) (fi vi : ℤ) : Bool :=
  decide (0 < groupIds.length) &&
    (groupAt groupIds vi == groupAt groupIds (faceRow F fi).1 ||
     groupAt groupIds vi == groupAt groupIds (faceRow F fi).2.1 ||
     groupAt groupIds vi == groupAt groupIds (faceRow F fi).2.2)

/-- HashGrid::getVertexEdgePairs: the two-bucket join of edge items against
vertex items, candidates are (edge id, vertex id). -/
def HashGrid.getVertexEdgePairs (g : HashGrid) (E : List (ℤ × ℤ))
    (groupIds : List ℤ) (candidates : List (ℤ × ℤ)) : List (ℤ × ℤ) :=
  getPairsBi (isEndpointEV E) (isSameGroupEV E groupIds)
    g.edgeItems g.vertexItems candidates

/-- HashGrid::getEdgeEdgePairs: the self join of the edge bucket,
candidates are (edge id, edge id) with the first scan index lower. -/
def HashGrid.getEdgeEdgePairs (g : HashGrid) (E : List (ℤ × ℤ))
    (groupIds : List ℤ) (candidates : List (ℤ × ℤ)) : List (ℤ × ℤ) :=
  getPairsSelf (isEndpointEE E) (isSameGroupEE E groupIds)
    g.edgeItems candidates

/-- HashGrid::getEdgeFacePairs: the two-bucket join of edge items against
face items, candidates are (edge id, face id). -/
def HashGrid.getEdgeFacePairs (g : HashGrid) (E : List (ℤ × ℤ))
    (F : List (ℤ × ℤ × ℤ)) (groupIds : List ℤ)
    (candidates : List (ℤ × ℤ)) : List (ℤ × ℤ) :=
  getPairsBi (isEndpointEF E F) (isSameGroupEF E F groupIds)
    g.edgeItems g.faceItems candidates

/-- HashGrid::getFaceVertexPairs: the two-bucket join of face items against
vertex items, candidates are (face id, vertex id). -/
def HashGrid.getFaceVertexPairs (g : HashGrid) (F : List (ℤ × ℤ × ℤ))
    (groupIds : List ℤ) (candidates : List (ℤ × ℤ)) : List (ℤ × ℤ) :=
  getPairsBi (isEndpointFV F) (isSameGroupFV F groupIds)
    g.faceItems g.vertexItems candidates


/-! ### Concrete instances used to settle the claims -/

/-- An unsized 2D grid, the state of a fresh HashGrid before resize. -/
def baseGrid2D : HashGrid := ⟨2, 1, ⟨0, 0, 0⟩, ⟨0, 0, 0⟩, 1, 1, 1, [], [], []⟩

/-- Grid for the completeness counterexample: 2D domain from the origin to
(20, 10), cell size 10, hence a 2 by 1 cell grid. -/
def missGrid : HashGrid := baseGrid2D.resize ⟨0, 0, 0⟩ ⟨20, 10, 0⟩ 10

/-- Vertices for the completeness counterexample: vertex 0 in the left
cell, vertices 1, 2, 3 in the right cell, all static. -/
def missV : List Vec3 := [⟨5, 5, 0⟩, ⟨12, 5, 0⟩, ⟨18, 5, 0⟩, ⟨15, 5, 0⟩]

/-- The single edge of the completeness counterexample, joining vertices 1
and 2; vertex 3 lies on it but is not one of its endpoints. -/
def missE : List (ℤ × ℤ) := [(1, 2)]

/-- The populated grid of the completeness counterexample, inflation 0. -/
def missPop : HashGrid := (missGrid.addVertices missV missV 0).addEdges missV missV missE 0

/-- Grid for the monotonicity counterexample: 2D domain from the origin to
(100, 100), cell size 10, hence a 10 by 10 cell grid. -/
def monoGrid : HashGrid := baseGrid2D.resize ⟨0, 0, 0⟩ ⟨100, 100, 0⟩ 10

/-- Vertices for the monotonicity counterexample: the edge endpoints 0, 1
and the non-endpoint vertex 2 sit in cell (9, 0); vertex 3 sits in cell
(5, 1), whose key 15 is larger than the shared key 9 at inflation 0 but
which spills into the vertex-only cell (4, 0) of key 4 at inflation 10. -/
def monoV : List Vec3 := [⟨92, 4, 0⟩, ⟨98, 6, 0⟩, ⟨95, 5, 0⟩, ⟨55, 15, 0⟩]

/-- The single edge of the monotonicity counterexample. -/
def monoE : List (ℤ × ℤ) := [(0, 1)]

/-- The populated grid of the monotonicity counterexample at inflation r. -/
def monoPop (r : ℚ) : HashGrid :=
  (monoGrid.addVertices monoV monoV r).addEdges monoV monoV monoE r

/-- A degenerate point box at the origin used by the filter and overlap
witnesses. -/
def witBox : AABB := ⟨2, ⟨0, 0, 0⟩, ⟨0, 0, 0⟩⟩

/-- A grid holding one edge item (id 0) and one vertex item (id 5) in the
same cell, used to witness the filter and overlap soundness theorems. -/
def witGrid : HashGrid :=
  ⟨2, 1, ⟨0, 0, 0⟩, ⟨0, 0, 0⟩, 1, 1, 1, [⟨0, 5, witBox⟩], [⟨0, 0, witBox⟩], []⟩

/-- The edge table of the witness grid: edge 0 joins vertices 1 and 2, so
vertex 5 is not one of its endpoints. -/
def witE : List (ℤ × ℤ) := [(1, 2)]

/-- Group labels of the witness scenario: six vertices in pairwise distinct
groups. -/
def witGroups : List ℤ := [10, 11, 12, 13, 14, 15]

/-- A face table placing face 0 on vertices 1, 2, 3, used by the face
query witnesses together with witGrid2. -/
def witF : List (ℤ × ℤ × ℤ) := [(1, 2, 3)]

/-- A grid holding one face item (id 0) and one vertex item (id 5) and one
edge item (id 0) in the same cell, for the face query witnesses. -/
def witGrid2 : HashGrid :=
  ⟨2, 1, ⟨0, 0, 0⟩, ⟨0, 0, 0⟩, 1, 1, 1, [⟨0, 5, witBox⟩], [⟨0, 0, witBox⟩],
    [⟨0, 0, witBox⟩]⟩

/-- Every in-range cell key of the grid is stored exactly, that is, the
32-bit narrowing of the hash of the cell leaves it unchanged. -/
def exactCellKeys (g : HashGrid) : Prop :=
  ∀ x y z : ℤ, 0 ≤ x → x < g.gx → 0 ≤ y → y < g.gy → 0 ≤ z → z < g.gz →
    toInt32 (g.hash x y z) = g.hash x y z

/-- The stored 32-bit keys of distinct in-range cells are distinct. -/
def injectiveCellKeys (g : HashGrid) : Prop :=
  ∀ x y z x2 y2 z2 : ℤ,
    0 ≤ x → x < g.gx → 0 ≤ y → y < g.gy → 0 ≤ z → z < g.gz →
    0 ≤ x2 → x2 < g.gx → 0 ≤ y2 → y2 < g.gy → 0 ≤ z2 → z2 < g.gz →
    toInt32 (g.hash x y z) = toInt32 (g.hash x2 y2 z2) →
    x = x2 ∧ y = y2 ∧ z = z2

/-- A 3D grid of 2 to the 30th by 2 by 1 cells: its cell count is 2 to the
31st, one more than the bound claimed by the spec, yet every cell key is
still stored exactly and without collision. -/
def wideGrid : HashGrid :=
  ⟨3, 1, ⟨0, 0, 0⟩, ⟨0, 0, 0⟩, 2 ^ 30, 2, 1, [], [], []⟩

/-- A small 3D grid used by witnesses of the key-width theorem. -/
def smallGrid3D : HashGrid :=
  ⟨3, 1, ⟨0, 0, 0⟩, ⟨0, 0, 0⟩, 3, 4, 5, [], [], []⟩

/-- A 3D grid of 2 to the 16th by 2 to the 16th by 2 cells: its cell count
2 to the 33rd exceeds the 32-bit key range, so the stored keys of the
in-range cells (0, 0, 0) and (0, 0, 1) wrap to the same value. -/
def wrapGrid : HashGrid :=
  ⟨3, 1, ⟨0, 0, 0⟩, ⟨0, 0, 0⟩, 2 ^ 16, 2 ^ 16, 2, [], [], []⟩



/-! ### Properties of the candidate order and of sortDedup -/

theorem candLE_antisymm {a b : ℤ × ℤ} (hab : candLE a b) (hba : candLE b a) :
    a = b := by
  rcases hab with h | ⟨he, h2⟩
  · rcases hba with h' | ⟨he', _⟩
    · exact absurd h' (lt_asymm h)
    · exact absurd h (he' ▸ lt_irrefl b.1)
  · rcases hba with h' | ⟨_, h2'⟩
    · exact absurd h' (he ▸ lt_irrefl a.1)
    · exact Prod.ext he (le_antisymm h2 h2')

theorem candLE_refl (a : ℤ × ℤ) : candLE a a := Or.inr ⟨rfl, le_refl _⟩

theorem dedupConsec_sublist : ∀ l : List (ℤ × ℤ), (dedupConsec l).Sublist l := by
  intro l
  induction l with
  | nil => simp [dedupConsec]
  | cons a t ih =>
    cases t with
    | nil => simp [dedupConsec]
    | cons b t2 =>
      rw [dedupConsec]
      split
      · exact ih.cons a
      · exact ih.cons₂ a

theorem dedupConsec_subset {l : List (ℤ × ℤ)} : dedupConsec l ⊆ l :=
  (dedupConsec_sublist l).subset

theorem dedupConsec_pairwise :
    ∀ l : List (ℤ × ℤ), List.Sorted candLE l →
      List.Pairwise (fun a b => candLE a b ∧ a ≠ b) (dedupConsec l) := by
  intro l
  induction l with
  | nil => intro _; simp [dedupConsec]
  | cons a t ih =>
    intro hs
    cases t with
    | nil => simp [dedupConsec]
    | cons b t2 =>
      rw [dedupConsec]
      rcases List.pairwise_cons.mp hs with ⟨hall, hs2⟩
      split
      · exact ih hs2
      · rename_i hne
        refine List.pairwise_cons.mpr ⟨?_, ih hs2⟩
        intro x hx
        have hxmem : x ∈ b :: t2 := (dedupConsec_sublist (b :: t2)).subset hx
        refine ⟨hall x hxmem, ?_⟩
        intro hax
        rcases List.mem_cons.mp hxmem with hxb | hxt
        · exact hne (hax.trans hxb)
        · have hbx : candLE b x := (List.pairwise_cons.mp hs2).1 x hxt
          have hab : candLE a b := hall b (List.mem_cons_self b t2)
          have hxa : candLE x a := hax ▸ candLE_refl x
          exact hne (candLE_antisymm hab (IsTrans.trans b x a hbx hxa))

theorem sortDedup_sorted (l : List (ℤ × ℤ)) :
    List.Sorted candLE (sortDedup l) :=
  (List.sorted_insertionSort candLE l).sublist
    (dedupConsec_sublist (List.insertionSort candLE l))

theorem sortDedup_nodup (l : List (ℤ × ℤ)) : (sortDedup l).Nodup :=
  (dedupConsec_pairwise _ (List.sorted_insertionSort candLE l)).imp
    (fun h => h.2)

theorem mem_of_mem_sortDedup {l : List (ℤ × ℤ)} {p : ℤ × ℤ}
    (hp : p ∈ sortDedup l) : p ∈ l :=
  (List.perm_insertionSort candLE l).mem_iff.mp (dedupConsec_subset hp)

theorem mem_sortItems_iff {l : List HashItem} {x : HashItem} :
    x ∈ sortItems l ↔ x ∈ l :=
  (List.perm_insertionSort itemLE l).mem_iff

/-! ### Soundness of the pair scans -/

theorem innerScan_fst_mem {iE iG : ℤ → ℤ → Bool} {item0 : HashItem} :
    ∀ {l : List HashItem} {p : ℤ × ℤ}, p ∈ (innerScan iE iG item0 l).1 →
      ∃ item1 ∈ l, item1.key = item0.key ∧ p = (item0.id, item1.id) ∧
        iE item0.id item1.id = false ∧ iG item0.id item1.id = false ∧
        are_overlapping item0.aabb item1.aabb = true := by
  intro l
  induction l with
  | nil => intro p hp; simp [innerScan] at hp
  | cons h1 t ih =>
    intro p hp
    rw [innerScan] at hp
    by_cases hk : h1.key = item0.key
    · rw [if_pos hk] at hp
      rcases List.mem_append.mp hp with hl | hr
      · by_cases hf : (!iE item0.id h1.id && !iG item0.id h1.id
            && are_overlapping item0.aabb h1.aabb) = true
        · rw [if_pos hf] at hl
          rcases List.mem_singleton.mp hl with rfl
          have hsplit : iE item0.id h1.id = false ∧ iG item0.id h1.id = false ∧
              are_overlapping item0.aabb h1.aabb = true := by
            simpa [and_assoc] using hf
          exact ⟨h1, List.mem_cons_self h1 t, hk, rfl, hsplit.1, hsplit.2.1,
            hsplit.2.2⟩
        · rw [if_neg hf] at hl
          simp at hl
      · rcases ih hr with ⟨item1, hmem, hrest⟩
        exact ⟨item1, List.mem_cons_of_mem h1 hmem, hrest⟩
    · rw [if_neg hk] at hp
      simp at hp

theorem innerScan_snd_subset {iE iG : ℤ → ℤ → Bool} {item0 : HashItem} :
    ∀ {l : List HashItem} {x : HashItem},
      x ∈ (innerScan iE iG item0 l).2 → x ∈ l := by
  intro l
  induction l with
  | nil => intro x hx; simp [innerScan] at hx
  | cons h1 t ih =>
    intro x hx
    rw [innerScan] at hx
    by_cases hk : h1.key = item0.key
    · rw [if_pos hk] at hx
      exact List.mem_cons_of_mem h1 (ih hx)
    · rw [if_neg hk] at hx
      exact hx

theorem scanPairs_mem {iE iG : ℤ → ℤ → Bool} :
    ∀ (s0 s1 : List HashItem) (acc : List (ℤ × ℤ)) (p : ℤ × ℤ),
      p ∈ scanPairs iE iG s0 s1 acc →
      p ∈ acc ∨ ∃ h0 ∈ s0, ∃ h1 ∈ s1, h1.key = h0.key ∧
        p = (h0.id, h1.id) ∧ iE h0.id h1.id = false ∧ iG h0.id h1.id = false ∧
        are_overlapping h0.aabb h1.aabb = true := by
  intro s0
  induction s0 with
  | nil => intro s1 acc p hp; simp only [scanPairs] at hp; exact Or.inl hp
  | cons item0 t0 ih =>
    intro s1 acc p hp
    cases s1 with
    | nil => simp only [scanPairs] at hp; exact Or.inl hp
    | cons item1 t1 =>
      have emitted :
          p ∈ acc ++ (innerScan iE iG item0 (item1 :: t1)).1 →
          p ∈ acc ∨ ∃ h0 ∈ item0 :: t0, ∃ h1 ∈ item1 :: t1, h1.key = h0.key ∧
            p = (h0.id, h1.id) ∧ iE h0.id h1.id = false ∧
            iG h0.id h1.id = false ∧
            are_overlapping h0.aabb h1.aabb = true := by
        intro hmem
        rcases List.mem_append.mp hmem with hl | hr
        · exact Or.inl hl
        · rcases innerScan_fst_mem hr with ⟨h1, hmem1, hk, hrest⟩
          exact Or.inr ⟨item0, List.mem_cons_self item0 t0, h1, hmem1, hk,
            hrest⟩
      cases t0 with
      | nil => simp only [scanPairs] at hp; exact emitted hp
      | cons item0b t0b =>
        simp only [scanPairs] at hp
        by_cases hkb : item0b.key = item0.key
        · rw [if_pos hkb] at hp
          rcases ih (item1 :: t1) _ p hp with hacc | ⟨h0, hm0, rest⟩
          · exact emitted hacc
          · exact Or.inr ⟨h0, List.mem_cons_of_mem item0 hm0, rest⟩
        · rw [if_neg hkb] at hp
          rcases ih _ _ p hp with hacc | ⟨h0, hm0, h1, hm1, rest⟩
          · exact emitted hacc
          · exact Or.inr ⟨h0, List.mem_cons_of_mem item0 hm0, h1,
              innerScan_snd_subset hm1, rest⟩

theorem emitSelf_mem {iE iG : ℤ → ℤ → Bool} {item0 : HashItem} :
    ∀ {l : List HashItem} {p : ℤ × ℤ}, p ∈ emitSelf iE iG item0 l →
      ∃ item1 ∈ l, item1.key = item0.key ∧ p = (item0.id, item1.id) ∧
        iE item0.id item1.id = false ∧ iG item0.id item1.id = false ∧
        are_overlapping item0.aabb item1.aabb = true := by
  intro l
  induction l with
  | nil => intro p hp; simp [emitSelf] at hp
  | cons h1 t ih =>
    intro p hp
    rw [emitSelf] at hp
    by_cases hk : h1.key = item0.key
    · rw [if_pos hk] at hp
      rcases List.mem_append.mp hp with hl | hr
      · by_cases hf : (!iE item0.id h1.id && !iG item0.id h1.id
            && are_overlapping item0.aabb h1.aabb) = true
        · rw [if_pos hf] at hl
          rcases List.mem_singleton.mp hl with rfl
          have hsplit : iE item0.id h1.id = false ∧ iG item0.id h1.id = false ∧
              are_overlapping item0.aabb h1.aabb = true := by
            simpa [and_assoc] using hf
          exact ⟨h1, List.mem_cons_self h1 t, hk, rfl, hsplit.1, hsplit.2.1,
            hsplit.2.2⟩
        · rw [if_neg hf] at hl
          simp at hl
      · rcases ih hr with ⟨item1, hmem, hrest⟩
        exact ⟨item1, List.mem_cons_of_mem h1 hmem, hrest⟩
    · rw [if_neg hk] at hp
      simp at hp

theorem scanSelf_mem {iE iG : ℤ → ℤ → Bool} :
    ∀ {l : List HashItem} {p : ℤ × ℤ}, p ∈ scanSelf iE iG l →
      ∃ h0 ∈ l, ∃ h1 ∈ l, h1.key = h0.key ∧ p = (h0.id, h1.id) ∧
        iE h0.id h1.id = false ∧ iG h0.id h1.id = false ∧
        are_overlapping h0.aabb h1.aabb = true := by
  intro l
  induction l with
  | nil => intro p hp; simp [scanSelf] at hp
  | cons h0 t ih =>
    intro p hp
    rw [scanSelf] at hp
    rcases List.mem_append.mp hp with hl | hr
    · rcases emitSelf_mem hl with ⟨h1, hmem1, hrest⟩
      exact ⟨h0, List.mem_cons_self h0 t, h1, List.mem_cons_of_mem h0 hmem1,
        hrest⟩
    · rcases ih hr with ⟨a, hma, b, hmb, hrest⟩
      exact ⟨a, List.mem_cons_of_mem h0 hma, b, List.mem_cons_of_mem h0 hmb,
        hrest⟩

theorem scanPairs_acc {iE iG : ℤ → ℤ → Bool} :
    ∀ (s0 s1 : List HashItem) (acc : List (ℤ × ℤ)),
      scanPairs iE iG s0 s1 acc = acc ++ scanPairs iE iG s0 s1 [] := by
  intro s0
  induction s0 with
  | nil => intro s1 acc; simp only [scanPairs]; simp
  | cons item0 t0 ih =>
    intro s1 acc
    cases s1 with
    | nil => simp only [scanPairs]; simp
    | cons item1 t1 =>
      cases t0 with
      | nil => simp only [scanPairs]; simp
      | cons item0b t0b =>
        simp only [scanPairs]
        by_cases hkb : item0b.key = item0.key
        · rw [if_pos hkb, if_pos hkb, ih (item1 :: t1) (acc ++ _),
            ih (item1 :: t1) ([] ++ _)]
          simp
        · rw [if_neg hkb, if_neg hkb,
            ih (innerScan iE iG item0 (item1 :: t1)).2 (acc ++ _),
            ih (innerScan iE iG item0 (item1 :: t1)).2 ([] ++ _)]
          simp

/-! ### Properties of the vertex_to_min_edge precomputation -/

theorem v2meColAux_le_acc (v : ℤ) (sel : ℤ × ℤ → ℤ) :
    ∀ (t : List (ℤ × ℤ)) (i acc : ℕ), v2meColAux v sel t i acc ≤ acc := by
  intro t
  induction t with
  | nil => intro i acc; simp [v2meColAux]
  | cons e t2 ih =>
    intro i acc
    rw [v2meColAux]
    refine le_trans (ih (i + 1) _) ?_
    split
    · exact min_le_left _ _
    · exact le_refl _

theorem v2meColAux_le_hit (v : ℤ) (sel : ℤ × ℤ → ℤ) :
    ∀ (t : List (ℤ × ℤ)) (i acc j : ℕ) (e : ℤ × ℤ),
      t[j]? = some e → sel e = v → v2meColAux v sel t i acc ≤ i + j := by
  intro t
  induction t with
  | nil => intro i acc j e hj; simp at hj
  | cons e0 t2 ih =>
    intro i acc j e hj hsel
    cases j with
    | zero =>
      simp at hj
      subst hj
      rw [v2meColAux, if_pos hsel]
      refine le_trans (v2meColAux_le_acc v sel t2 (i + 1) _) ?_
      simp
    | succ j2 =>
      simp at hj
      rw [v2meColAux]
      have := ih (i + 1) (if sel e0 = v then min acc i else acc) j2 e hj hsel
      omega

theorem v2meColAux_cases (v : ℤ) (sel : ℤ × ℤ → ℤ) :
    ∀ (t : List (ℤ × ℤ)) (i acc : ℕ),
      v2meColAux v sel t i acc = acc ∨
        ∃ j e, t[j]? = some e ∧ sel e = v ∧ v2meColAux v sel t i acc = i + j := by
  intro t
  induction t with
  | nil => intro i acc; left; rw [v2meColAux]
  | cons e0 t2 ih =>
    intro i acc
    rw [v2meColAux]
    by_cases hsel : sel e0 = v
    · rw [if_pos hsel]
      rcases ih (i + 1) (min acc i) with h | ⟨j, e, hj, hs, hv⟩
      · rcases le_total acc i with hai | hia
        · left; rw [h, min_eq_left hai]
        · right
          refine ⟨0, e0, by simp, hsel, ?_⟩
          rw [h, min_eq_right hia]
          omega
      · right
        exact ⟨j + 1, e, by simpa using hj, hs, by omega⟩
    · rw [if_neg hsel]
      rcases ih (i + 1) acc with h | ⟨j, e, hj, hs, hv⟩
      · left; exact h
      · right
        exact ⟨j + 1, e, by simpa using hj, hs, by omega⟩

theorem v2me_le_hit {E : List (ℤ × ℤ)} {v : ℤ} {i : ℕ} {e : ℤ × ℤ}
    (hi : E[i]? = some e) (hrow : e.1 = v ∨ e.2 = v) : v2me E v ≤ i := by
  rcases hrow with h1 | h2
  · refine le_trans (v2meColAux_le_acc v Prod.snd E 0 _) ?_
    simpa using v2meColAux_le_hit v Prod.fst E 0 (E.length + 1) i e hi h1
  · simpa using v2meColAux_le_hit v Prod.snd E 0 _ i e hi h2

theorem v2me_hit {E : List (ℤ × ℤ)} {v : ℤ} {i0 : ℕ} {e0 : ℤ × ℤ}
    (hi0 : E[i0]? = some e0) (hrow0 : e0.1 = v ∨ e0.2 = v) :
    ∃ e, E[v2me E v]? = some e ∧ (e.1 = v ∨ e.2 = v) := by
  have hle : v2me E v ≤ i0 := v2me_le_hit hi0 hrow0
  have hlen : i0 < E.length := (List.getElem?_eq_some_iff.mp hi0).1
  rcases v2meColAux_cases v Prod.snd E 0
      (v2meColAux v Prod.fst E 0 (E.length + 1)) with houter | ⟨j, e, hj, hs, hv⟩
  · rcases v2meColAux_cases v Prod.fst E 0 (E.length + 1) with hinner |
        ⟨j, e, hj, hs, hv⟩
    · exfalso
      have : v2me E v = E.length + 1 := by rw [v2me, houter, hinner]
      omega
    · have : v2me E v = j := by rw [v2me, houter, hv]; omega
      exact ⟨e, this ▸ hj, Or.inl hs⟩
  · have : v2me E v = j := by rw [v2me, hv]; omega
    exact ⟨e, this ▸ hj, Or.inr hs⟩

theorem addVFECallsAux_count_zero (Eall : List (ℤ × ℤ)) (v : ℤ) :
    ∀ (rest : List (ℤ × ℤ)) (i : ℕ), v2me Eall v < i →
      (addVFECallsAux Eall rest i).count v = 0 := by
  intro rest
  induction rest with
  | nil => intro i _; rw [addVFECallsAux]; simp
  | cons e t ih =>
    intro i hlt
    rw [addVFECallsAux]
    rw [List.count_append, List.count_append, ih (i + 1) (by omega)]
    have c1 : ((if v2me Eall e.1 = i then [e.1] else []) : List ℤ).count v = 0 := by
      split
      · rename_i hguard
        rcases eq_or_ne e.1 v with rfl | hne
        · omega
        · simp [List.count_singleton, hne]
      · simp
    have c2 : ((if v2me Eall e.2 = i then [e.2] else []) : List ℤ).count v = 0 := by
      split
      · rename_i hguard
        rcases eq_or_ne e.2 v with rfl | hne
        · omega
        · simp [List.count_singleton, hne]
      · simp
    rw [c1, c2]

theorem addVFECallsAux_count_one (Eall : List (ℤ × ℤ)) (v : ℤ) :
    ∀ (rest : List (ℤ × ℤ)) (i : ℕ) (erow : ℤ × ℤ), i ≤ v2me Eall v →
      (∀ e ∈ rest, e.1 ≠ e.2) →
      rest[v2me Eall v - i]? = some erow → (erow.1 = v ∨ erow.2 = v) →
      (addVFECallsAux Eall rest i).count v = 1 := by
  intro rest
  induction rest with
  | nil => intro i erow _ _ hm _; simp at hm
  | cons e t ih =>
    intro i erow hle hdist hm hrow
    rcases eq_or_lt_of_le hle with heq | hlt
    · have h0 : v2me Eall v - i = 0 := by omega
      rw [h0] at hm
      simp at hm
      subst hm
      rw [addVFECallsAux]
      rw [List.count_append, List.count_append,
        addVFECallsAux_count_zero Eall v t (i + 1) (by omega)]
      have hdiff : e.1 ≠ e.2 := hdist e (List.mem_cons_self e t)
      rcases hrow with h1 | h2
      · have c1 : ((if v2me Eall e.1 = i then [e.1] else []) : List ℤ).count v
            = 1 := by
          rw [h1, if_pos heq.symm]
          simp [List.count_singleton]
        have c2 : ((if v2me Eall e.2 = i then [e.2] else []) : List ℤ).count v
            = 0 := by
          have hne : e.2 ≠ v := fun hc => hdiff (h1.trans hc.symm)
          split
          · simp [List.count_singleton, hne]
          · simp
        omega
      · have c1 : ((if v2me Eall e.1 = i then [e.1] else []) : List ℤ).count v
            = 0 := by
          have hne : e.1 ≠ v := fun hc => hdiff (hc.trans h2.symm)
          split
          · simp [List.count_singleton, hne]
          · simp
        have c2 : ((if v2me Eall e.2 = i then [e.2] else []) : List ℤ).count v
            = 1 := by
          rw [h2, if_pos heq.symm]
          simp [List.count_singleton]
        omega
    · rw [addVFECallsAux]
      rw [List.count_append, List.count_append]
      have hm2 : t[v2me Eall v - (i + 1)]? = some erow := by
        have hidx : v2me Eall v - i = (v2me Eall v - (i + 1)) + 1 := by omega
        rw [hidx] at hm
        simpa using hm
      rw [ih (i + 1) erow (by omega) (fun x hx => hdist x (List.mem_cons_of_mem e hx))
        hm2 hrow]
      have c1 : ((if v2me Eall e.1 = i then [e.1] else []) : List ℤ).count v = 0 := by
        split
        · rename_i hguard
          rcases eq_or_ne e.1 v with rfl | hne
          · omega
          · simp [List.count_singleton, hne]
        · simp
      have c2 : ((if v2me Eall e.2 = i then [e.2] else []) : List ℤ).count v = 0 := by
        split
        · rename_i hguard
          rcases eq_or_ne e.2 v with rfl | hne
          · omega
          · simp [List.count_singleton, hne]
        · simp
      omega

/-! ### Arithmetic of the cell hash and of the 32-bit key -/

theorem hash_decode (g : HashGrid) {x y z : ℤ} (hx0 : 0 ≤ x) (hx : x < g.gx)
    (hy0 : 0 ≤ y) (hy : y < g.gy) (hz0 : 0 ≤ z) :
    g.hash x y z % g.gx = x ∧ (g.hash x y z / g.gx) % g.gy = y ∧
      g.hash x y z / (g.gx * g.gy) = z := by
  have hgx : 0 < g.gx := lt_of_le_of_lt hx0 hx
  have hgy : 0 < g.gy := lt_of_le_of_lt hy0 hy
  have hk : g.hash x y z = x + g.gx * (y + g.gy * z) := by
    rw [HashGrid.hash]; ring
  have hk2 : g.hash x y z = (x + g.gx * y) + (g.gx * g.gy) * z := by
    rw [HashGrid.hash]; ring
  refine ⟨?_, ?_, ?_⟩
  · rw [hk, Int.add_mul_emod_self_left, Int.emod_eq_of_lt hx0 hx]
  · rw [hk, Int.add_mul_ediv_left _ _ hgx.ne', Int.ediv_eq_zero_of_lt hx0 hx,
      zero_add, Int.add_mul_emod_self_left, Int.emod_eq_of_lt hy0 hy]
  · have h2 : g.gx * (y + 1) ≤ g.gx * g.gy :=
      mul_le_mul_of_nonneg_left (by omega) hgx.le
    have hxylt : x + g.gx * y < g.gx * g.gy := by
      rw [mul_add, mul_one] at h2
      linarith
    have hxy0 : 0 ≤ x + g.gx * y := add_nonneg hx0 (mul_nonneg hgx.le hy0)
    rw [hk2, Int.add_mul_ediv_left _ _ (mul_pos hgx hgy).ne',
      Int.ediv_eq_zero_of_lt hxy0 hxylt, zero_add]

theorem hash_bounds (g : HashGrid) {x y z : ℤ} (hx0 : 0 ≤ x) (hx : x < g.gx)
    (hy0 : 0 ≤ y) (hy : y < g.gy) (hz0 : 0 ≤ z) (hz : z < g.gz) :
    0 ≤ g.hash x y z ∧ g.hash x y z < g.gx * g.gy * g.gz := by
  have hgx : 0 < g.gx := lt_of_le_of_lt hx0 hx
  have hgy : 0 < g.gy := lt_of_le_of_lt hy0 hy
  have hk : g.hash x y z = x + g.gx * (y + g.gy * z) := by
    rw [HashGrid.hash]; ring
  constructor
  · rw [hk]
    exact add_nonneg hx0
      (mul_nonneg hgx.le (add_nonneg hy0 (mul_nonneg hgy.le hz0)))
  · have h2 : g.gy * (z + 1) ≤ g.gy * g.gz :=
      mul_le_mul_of_nonneg_left (by omega) hgy.le
    have h3 : y + g.gy * z + 1 ≤ g.gy * g.gz := by
      rw [mul_add, mul_one] at h2
      linarith
    have h4 : g.gx * (y + g.gy * z + 1) ≤ g.gx * (g.gy * g.gz) :=
      mul_le_mul_of_nonneg_left h3 hgx.le
    have h5 : x + g.gx * (y + g.gy * z) < g.gx * (y + g.gy * z + 1) := by
      have hexp : g.gx * (y + g.gy * z + 1) = g.gx * (y + g.gy * z) + g.gx := by
        ring
      rw [hexp]
      linarith
    rw [hk, ← mul_assoc] at *
    linarith

theorem toInt32_eq_self {n : ℤ} (h1 : -2 ^ 31 ≤ n) (h2 : n < 2 ^ 31) :
    toInt32 n = n := by
  have e : (2 : ℤ) ^ 32 = 2 ^ 31 + 2 ^ 31 := by norm_num
  rw [toInt32, Int.emod_eq_of_lt (by linarith) (by linarith)]
  ring

theorem toInt32_range (n : ℤ) : -2 ^ 31 ≤ toInt32 n ∧ toInt32 n < 2 ^ 31 := by
  have h1 : 0 ≤ (n + 2 ^ 31) % 2 ^ 32 := Int.emod_nonneg _ (by norm_num)
  have h2 : (n + 2 ^ 31) % 2 ^ 32 < 2 ^ 32 :=
    Int.emod_lt_of_pos _ (by norm_num)
  rw [toInt32]
  omega

theorem toInt32_dvd_sub (n : ℤ) : (2 ^ 32 : ℤ) ∣ n - toInt32 n := by
  refine ⟨(n + 2 ^ 31) / 2 ^ 32, ?_⟩
  have h := Int.ediv_add_emod (n + 2 ^ 31) (2 ^ 32)
  rw [toInt32]
  linarith

theorem exactCellKeys_of_le {g : HashGrid} (hp : g.gx * g.gy * g.gz ≤ 2 ^ 31) :
    exactCellKeys g := by
  intro x y z hx0 hx hy0 hy hz0 hz
  rcases hash_bounds g hx0 hx hy0 hy hz0 hz with ⟨h0, h1⟩
  have hneg : (-2 ^ 31 : ℤ) ≤ g.hash x y z := by
    have : (0 : ℤ) ≤ 2 ^ 31 := by norm_num
    linarith
  exact toInt32_eq_self hneg (lt_of_lt_of_le h1 hp)

theorem injectiveCellKeys_of_le {g : HashGrid}
    (hp : g.gx * g.gy * g.gz ≤ 2 ^ 31) : injectiveCellKeys g := by
  intro x y z x2 y2 z2 hx0 hx hy0 hy hz0 hz hx20 hx2 hy20 hy2 hz20 hz2 heq
  have hex := exactCellKeys_of_le hp
  rw [hex x y z hx0 hx hy0 hy hz0 hz,
    hex x2 y2 z2 hx20 hx2 hy20 hy2 hz20 hz2] at heq
  have d1 := hash_decode g hx0 hx hy0 hy hz0
  have d2 := hash_decode g hx20 hx2 hy20 hy2 hz20
  refine ⟨?_, ?_, ?_⟩
  · rw [← d1.1, ← d2.1, heq]
  · rw [← d1.2.1, ← d2.2.1, heq]
  · rw [← d1.2.2, ← d2.2.2, heq]

theorem addElement_key {g : HashGrid} {aabb : AABB} {id : ℤ}
    {items : List HashItem} {it : HashItem}
    (h : it ∈ g.addElement aabb id items) :
    it ∈ items ∨ ∃ x y z : ℤ, it.key = toInt32 (g.hash x y z) := by
  simp only [HashGrid.addElement, List.mem_append, List.mem_flatMap,
    List.mem_map] at h
  rcases h with h | ⟨x, _, y, _, z, _, rfl⟩
  · exact Or.inl h
  · exact Or.inr ⟨x, y, z, rfl⟩

/-! ### The call structure of addVerticesFromEdges -/

theorem addVFEItemsAux_eq_foldl (g : HashGrid) (V0 V1 : List Vec3) (r : ℚ)
    (Eall : List (ℤ × ℤ)) :
    ∀ (rest : List (ℤ × ℤ)) (i : ℕ) (acc : List HashItem),
      addVFEItemsAux g V0 V1 r Eall rest i acc =
        (addVFECallsAux Eall rest i).foldl
          (fun acc2 vi =>
            g.addVertexTo (vertexAt V0 vi) (vertexAt V1 vi) vi acc2 r) acc := by
  intro rest
  induction rest with
  | nil => intro i acc; rw [addVFEItemsAux, addVFECallsAux]; simp
  | cons e t ih =>
    intro i acc
    simp only [addVFEItemsAux, addVFECallsAux]
    by_cases h1 : v2me Eall e.1 = i <;> by_cases h2 : v2me Eall e.2 = i <;>
      simp [h1, h2, ih, List.foldl_append]

theorem addVerticesFromEdges_eq_foldl (g : HashGrid) (V0 V1 : List Vec3)
    (E : List (ℤ × ℤ)) (r : ℚ) :
    (g.addVerticesFromEdges V0 V1 E r).vertexItems =
      (addVFECalls E).foldl
        (fun acc vi =>
          g.addVertexTo (vertexAt V0 vi) (vertexAt V1 vi) vi acc r)
        g.vertexItems := by
  rw [HashGrid.addVerticesFromEdges, addVFECalls,
    addVFEItemsAux_eq_foldl g V0 V1 r E E 0 g.vertexItems]

/-! ### Soundness facts for the two getPairs variants -/

theorem getPairsBi_filter {iE iG : ℤ → ℤ → Bool} {items0 items1 : List HashItem}
    {a b : ℤ} (h : (a, b) ∈ getPairsBi iE iG items0 items1 []) :
    iE a b = false ∧ iG a b = false := by
  have hraw := mem_of_mem_sortDedup h
  rcases scanPairs_mem _ _ _ _ hraw with habs | ⟨h0, _, h1, _, _, heqp, hE, hG, _⟩
  · simp at habs
  · have ha : a = h0.id := congrArg Prod.fst heqp
    have hb : b = h1.id := congrArg Prod.snd heqp
    rw [ha, hb]
    exact ⟨hE, hG⟩

theorem getPairsBi_overlap {iE iG : ℤ → ℤ → Bool}
    {items0 items1 : List HashItem} {a b : ℤ}
    (h : (a, b) ∈ getPairsBi iE iG items0 items1 []) :
    ∃ h0 ∈ items0, ∃ h1 ∈ items1, h0.id = a ∧ h1.id = b ∧ h0.key = h1.key ∧
      are_overlapping h0.aabb h1.aabb = true := by
  have hraw := mem_of_mem_sortDedup h
  rcases scanPairs_mem _ _ _ _ hraw with habs |
    ⟨h0, hm0, h1, hm1, hk, heqp, _, _, hov⟩
  · simp at habs
  · have ha : a = h0.id := congrArg Prod.fst heqp
    have hb : b = h1.id := congrArg Prod.snd heqp
    exact ⟨h0, mem_sortItems_iff.mp hm0, h1, mem_sortItems_iff.mp hm1,
      ha.symm, hb.symm, hk.symm, hov⟩

theorem getPairsSelf_filter {iE iG : ℤ → ℤ → Bool} {items : List HashItem}
    {a b : ℤ} (h : (a, b) ∈ getPairsSelf iE iG items []) :
    iE a b = false ∧ iG a b = false := by
  have hraw := mem_of_mem_sortDedup h
  rw [List.nil_append] at hraw
  rcases scanSelf_mem hraw with ⟨h0, _, h1, _, _, heqp, hE, hG, _⟩
  have ha : a = h0.id := congrArg Prod.fst heqp
  have hb : b = h1.id := congrArg Prod.snd heqp
  rw [ha, hb]
  exact ⟨hE, hG⟩

theorem getPairsSelf_overlap {iE iG : ℤ → ℤ → Bool} {items : List HashItem}
    {a b : ℤ} (h : (a, b) ∈ getPairsSelf iE iG items []) :
    ∃ h0 ∈ items, ∃ h1 ∈ items, h0.id = a ∧ h1.id = b ∧ h0.key = h1.key ∧
      are_overlapping h0.aabb h1.aabb = true := by
  have hraw := mem_of_mem_sortDedup h
  rw [List.nil_append] at hraw
  rcases scanSelf_mem hraw with ⟨h0, hm0, h1, hm1, hk, heqp, _, _, hov⟩
  have ha : a = h0.id := congrArg Prod.fst heqp
  have hb : b = h1.id := congrArg Prod.snd heqp
  exact ⟨h0, mem_sortItems_iff.mp hm0, h1, mem_sortItems_iff.mp hm1,
    ha.symm, hb.symm, hk.symm, hov⟩

/-! ### The claims -/

/-- Claim C2: filter soundness. For each of the four queries run with an
initially empty output list, every returned pair has is_endpoint false,
and when group_ids is non-empty it also has is_same_group false. -/
theorem claim2_filter_soundness :
    (∀ (g : HashGrid) (E : List (ℤ × ℤ)) (gids : List ℤ) (a b : ℤ),
      (a, b) ∈ g.getVertexEdgePairs E gids [] →
      isEndpointEV E a b = false ∧
        (gids ≠ [] → isSameGroupEV E gids a b = false)) ∧
    (∀ (g : HashGrid) (E : List (ℤ × ℤ)) (gids : List ℤ) (a b : ℤ),
      (a, b) ∈ g.getEdgeEdgePairs E gids [] →
      isEndpointEE E a b = false ∧
        (gids ≠ [] → isSameGroupEE E gids a b = false)) ∧
    (∀ (g : HashGrid) (E : List (ℤ × ℤ)) (F : List (ℤ × ℤ × ℤ))
        (gids : List ℤ) (a b : ℤ),
      (a, b) ∈ g.getEdgeFacePairs E F gids [] →
      isEndpointEF E F a b = false ∧
        (gids ≠ [] → isSameGroupEF E F gids a b = false)) ∧
    (∀ (g : HashGrid) (F : List (ℤ × ℤ × ℤ)) (gids : List ℤ) (a b : ℤ),
      (a, b) ∈ g.getFaceVertexPairs F gids [] →
      isEndpointFV F a b = false ∧
        (gids ≠ [] → isSameGroupFV F gids a b = false)) := by
  refine ⟨?_, ?_, ?_, ?_⟩
  · intro g E gids a b h
    have hf := getPairsBi_filter h
    exact ⟨hf.1, fun _ => hf.2⟩
  · intro g E gids a b h
    have hf := getPairsSelf_filter h
    exact ⟨hf.1, fun _ => hf.2⟩
  · intro g E F gids a b h
    have hf := getPairsBi_filter h
    exact ⟨hf.1, fun _ => hf.2⟩
  · intro g F gids a b h
    have hf := getPairsBi_filter h
    exact ⟨hf.1, fun _ => hf.2⟩

/-- Witness for claim C2, instantiating the edge-vertex part at a concrete
one-edge, one-vertex grid whose query returns the pair (0, 5). -/
theorem claim2_filter_soundness_witness :
    isEndpointEV witE 0 5 = false ∧ isSameGroupEV witE witGroups 0 5 = false := by
  have h := claim2_filter_soundness.1 witGrid witE witGroups 0 5
    (by with_unfolding_all decide)
  exact ⟨h.1, h.2 (by decide)⟩

/-- Claim C3: overlap soundness. Every pair returned by a query run with an
initially empty output list comes from two hash items of the queried
buckets that share a key and whose carried inflated swept boxes pass the
are_overlapping test. -/
theorem claim3_overlap_soundness :
    (∀ (g : HashGrid) (E : List (ℤ × ℤ)) (gids : List ℤ) (a b : ℤ),
      (a, b) ∈ g.getVertexEdgePairs E gids [] →
      ∃ h0 ∈ g.edgeItems, ∃ h1 ∈ g.vertexItems, h0.id = a ∧ h1.id = b ∧
        h0.key = h1.key ∧ are_overlapping h0.aabb h1.aabb = true) ∧
    (∀ (g : HashGrid) (E : List (ℤ × ℤ)) (gids : List ℤ) (a b : ℤ),
      (a, b) ∈ g.getEdgeEdgePairs E gids [] →
      ∃ h0 ∈ g.edgeItems, ∃ h1 ∈ g.edgeItems, h0.id = a ∧ h1.id = b ∧
        h0.key = h1.key ∧ are_overlapping h0.aabb h1.aabb = true) ∧
    (∀ (g : HashGrid) (E : List (ℤ × ℤ)) (F : List (ℤ × ℤ × ℤ))
        (gids : List ℤ) (a b : ℤ),
      (a, b) ∈ g.getEdgeFacePairs E F gids [] →
      ∃ h0 ∈ g.edgeItems, ∃ h1 ∈ g.faceItems, h0.id = a ∧ h1.id = b ∧
        h0.key = h1.key ∧ are_overlapping h0.aabb h1.aabb = true) ∧
    (∀ (g : HashGrid) (F : List (ℤ × ℤ × ℤ)) (gids : List ℤ) (a b : ℤ),
      (a, b) ∈ g.getFaceVertexPairs F gids [] →
      ∃ h0 ∈ g.faceItems, ∃ h1 ∈ g.vertexItems, h0.id = a ∧ h1.id = b ∧
        h0.key = h1.key ∧ are_overlapping h0.aabb h1.aabb = true) := by
  refine ⟨?_, ?_, ?_, ?_⟩
  · intro g E gids a b h
    exact getPairsBi_overlap h
  · intro g E gids a b h
    exact getPairsSelf_overlap h
  · intro g E F gids a b h
    exact getPairsBi_overlap h
  · intro g F gids a b h
    exact getPairsBi_overlap h

/-- Witness for claim C3 at the same concrete grid as the C2 witness. -/
theorem claim3_overlap_soundness_witness :
    ∃ h0 ∈ witGrid.edgeItems, ∃ h1 ∈ witGrid.vertexItems, h0.id = 0 ∧
      h1.id = 5 ∧ h0.key = h1.key ∧ are_overlapping h0.aabb h1.aabb = true :=
  claim3_overlap_soundness.1 witGrid witE [] 0 5 (by with_unfolding_all decide)

/-- Claim C4: each query leaves the candidate vector sorted in the
candidate order and free of duplicates, for any initial content. -/
theorem claim4_sorted_unique :
    (∀ (g : HashGrid) (E : List (ℤ × ℤ)) (gids : List ℤ)
        (cands : List (ℤ × ℤ)),
      List.Sorted candLE (g.getVertexEdgePairs E gids cands) ∧
        (g.getVertexEdgePairs E gids cands).Nodup) ∧
    (∀ (g : HashGrid) (E : List (ℤ × ℤ)) (gids : List ℤ)
        (cands : List (ℤ × ℤ)),
      List.Sorted candLE (g.getEdgeEdgePairs E gids cands) ∧
        (g.getEdgeEdgePairs E gids cands).Nodup) ∧
    (∀ (g : HashGrid) (E : List (ℤ × ℤ)) (F : List (ℤ × ℤ × ℤ))
        (gids : List ℤ) (cands : List (ℤ × ℤ)),
      List.Sorted candLE (g.getEdgeFacePairs E F gids cands) ∧
        (g.getEdgeFacePairs E F gids cands).Nodup) ∧
    (∀ (g : HashGrid) (F : List (ℤ × ℤ × ℤ)) (gids : List ℤ)
        (cands : List (ℤ × ℤ)),
      List.Sorted candLE (g.getFaceVertexPairs F gids cands) ∧
        (g.getFaceVertexPairs F gids cands).Nodup) :=
  ⟨fun _ _ _ _ => ⟨sortDedup_sorted _, sortDedup_nodup _⟩,
   fun _ _ _ _ => ⟨sortDedup_sorted _, sortDedup_nodup _⟩,
   fun _ _ _ _ _ => ⟨sortDedup_sorted _, sortDedup_nodup _⟩,
   fun _ _ _ _ => ⟨sortDedup_sorted _, sortDedup_nodup _⟩⟩

/-- Claim C9: every query sorts and deduplicates the whole caller vector:
the result is sortDedup of the initial content followed by the raw scanned
pairs, and on a concrete two-element duplicate initial list with an empty
grid the vector shrinks to one element. -/
theorem claim9_frame_effect :
    (∀ (g : HashGrid) (E : List (ℤ × ℤ)) (gids : List ℤ)
        (cands : List (ℤ × ℤ)),
      g.getVertexEdgePairs E gids cands = sortDedup (cands ++
        scanPairs (isEndpointEV E) (isSameGroupEV E gids)
          (sortItems g.edgeItems) (sortItems g.vertexItems) [])) ∧
    (∀ (g : HashGrid) (E : List (ℤ × ℤ)) (gids : List ℤ)
        (cands : List (ℤ × ℤ)),
      g.getEdgeEdgePairs E gids cands = sortDedup (cands ++
        scanSelf (isEndpointEE E) (isSameGroupEE E gids)
          (sortItems g.edgeItems))) ∧
    (∀ (g : HashGrid) (E : List (ℤ × ℤ)) (F : List (ℤ × ℤ × ℤ))
        (gids : List ℤ) (cands : List (ℤ × ℤ)),
      g.getEdgeFacePairs E F gids cands = sortDedup (cands ++
        scanPairs (isEndpointEF E F) (isSameGroupEF E F gids)
          (sortItems g.edgeItems) (sortItems g.faceItems) [])) ∧
    (∀ (g : HashGrid) (F : List (ℤ × ℤ × ℤ)) (gids : List ℤ)
        (cands : List (ℤ × ℤ)),
      g.getFaceVertexPairs F gids cands = sortDedup (cands ++
        scanPairs (isEndpointFV F) (isSameGroupFV F gids)
          (sortItems g.faceItems) (sortItems g.vertexItems) [])) ∧
    (baseGrid2D.getVertexEdgePairs [] []
        [((0 : ℤ), (0 : ℤ)), ((0 : ℤ), (0 : ℤ))] = [((0 : ℤ), (0 : ℤ))]) := by
  refine ⟨?_, ?_, ?_, ?_, ?_⟩
  · intro g E gids cands
    rw [HashGrid.getVertexEdgePairs, getPairsBi, scanPairs_acc]
  · intro g E gids cands
    rfl
  · intro g E F gids cands
    rw [HashGrid.getEdgeFacePairs, getPairsBi, scanPairs_acc]
  · intro g F gids cands
    rw [HashGrid.getFaceVertexPairs, getPairsBi, scanPairs_acc]
  · with_unfolding_all decide

/-- Counterexample for claim C7: the program computes the hash in 32-bit
int arithmetic and stores it in the int key field, so on the in-range
wrapGrid (2 to the 16th by 2 to the 16th by 2 cells) the distinct in-range
cells (0, 0, 0) and (0, 0, 1) get the same stored key 0, and decoding the
stored key of (0, 0, 1) yields z = 0, not 1: the unconditional round-trip
and injectivity fail. -/
theorem claim7_wrap_counterexample :
    (0 : ℤ) ≤ 1 ∧ (1 : ℤ) < wrapGrid.gz ∧
    toInt32 (wrapGrid.hash 0 0 1) = toInt32 (wrapGrid.hash 0 0 0) ∧
    toInt32 (wrapGrid.hash 0 0 1) / (wrapGrid.gx * wrapGrid.gy) = 0 ∧
    (1 : ℤ) ≠ 0 := by
  refine ⟨by norm_num, ?_, ?_, ?_, by norm_num⟩ <;> decide

/-- Claim C7 as amended: on every grid whose cell count gx * gy * gz is at
most 2 to the 31st (the regime in which the stored 32-bit key equals the
ideal hash), decoding the stored key of an in-range cell by mod and
division with the grid sizes recovers the cell, and the stored keys are
injective on in-range cells. -/
theorem claim7_amended :
    ∀ (g : HashGrid) (x y z : ℤ), g.gx * g.gy * g.gz ≤ 2 ^ 31 →
      0 ≤ x → x < g.gx → 0 ≤ y → y < g.gy → 0 ≤ z → z < g.gz →
      toInt32 (g.hash x y z) % g.gx = x ∧
        (toInt32 (g.hash x y z) / g.gx) % g.gy = y ∧
        toInt32 (g.hash x y z) / (g.gx * g.gy) = z ∧
        (∀ x2 y2 z2 : ℤ, 0 ≤ x2 → x2 < g.gx → 0 ≤ y2 → y2 < g.gy → 0 ≤ z2 →
          z2 < g.gz → toInt32 (g.hash x y z) = toInt32 (g.hash x2 y2 z2) →
          x = x2 ∧ y = y2 ∧ z = z2) := by
  intro g x y z hp hx0 hx hy0 hy hz0 hz
  have hex : toInt32 (g.hash x y z) = g.hash x y z :=
    exactCellKeys_of_le hp x y z hx0 hx hy0 hy hz0 hz
  have d1 := hash_decode g hx0 hx hy0 hy hz0
  refine ⟨by rw [hex]; exact d1.1, by rw [hex]; exact d1.2.1,
    by rw [hex]; exact d1.2.2, ?_⟩
  intro x2 y2 z2 hx20 hx2 hy20 hy2 hz20 hz2 heq
  have hinj := injectiveCellKeys_of_le hp x y z x2 y2 z2
    hx0 hx hy0 hy hz0 hz hx20 hx2 hy20 hy2 hz20 hz2 heq
  exact hinj

/-- Witness for claim C7 on a 3 by 4 by 5 grid (60 cells, within the
bound) at cell (2, 3, 4). -/
theorem claim7_amended_witness :
    toInt32 (smallGrid3D.hash 2 3 4) % smallGrid3D.gx = 2 ∧
      (toInt32 (smallGrid3D.hash 2 3 4) / smallGrid3D.gx) % smallGrid3D.gy
        = 3 ∧
      toInt32 (smallGrid3D.hash 2 3 4) / (smallGrid3D.gx * smallGrid3D.gy)
        = 4 := by
  have h := claim7_amended smallGrid3D 2 3 4
    (by show (3 : ℤ) * 4 * 5 ≤ 2 ^ 31; norm_num) (by decide) (by decide)
    (by decide) (by decide) (by decide) (by decide)
  exact ⟨h.1, h.2.1, h.2.2.1⟩

/-- Claim C1 (code bug): completeness versus brute force fails on the code.
In the concrete populated missPop grid, edge 0 and vertex 3 were both
inserted into cell key 1, their inflated swept boxes overlap, vertex 3 is
not an endpoint of edge 0 and no groups are given, yet getVertexEdgePairs
returns the empty list, because vertex 0 occupies the vertex-only cell key
0 and the join never advances j_start past an unmatched run. -/
theorem claim1_completeness_fails :
    missPop.getVertexEdgePairs missE [] [] = [] ∧
    (⟨1, 0, edgeAABB 2 ⟨12, 5, 0⟩ ⟨18, 5, 0⟩ ⟨12, 5, 0⟩ ⟨18, 5, 0⟩ 0⟩ :
      HashItem) ∈ missPop.edgeItems ∧
    (⟨1, 3, vertexAABB 2 ⟨15, 5, 0⟩ ⟨15, 5, 0⟩ 0⟩ :
      HashItem) ∈ missPop.vertexItems ∧
    are_overlapping (edgeAABB 2 ⟨12, 5, 0⟩ ⟨18, 5, 0⟩ ⟨12, 5, 0⟩ ⟨18, 5, 0⟩ 0)
      (vertexAABB 2 ⟨15, 5, 0⟩ ⟨15, 5, 0⟩ 0) = true ∧
    isEndpointEV missE 0 3 = false ∧
    isSameGroupEV missE [] 0 3 = false := by
  with_unfolding_all decide

/-- Claim C6 (code bug): inflation monotonicity fails on the code. On the
fixed monoGrid with the same mesh, the candidate pair (0, 2) is returned
at inflation radius 0 but not at inflation radius 10, although 10 is the
larger radius. -/
theorem claim6_monotonicity_fails :
    ((0 : ℚ) ≤ 10) ∧
    ((0 : ℤ), (2 : ℤ)) ∈ (monoPop 0).getVertexEdgePairs monoE [] [] ∧
    ((0 : ℤ), (2 : ℤ)) ∉ (monoPop 10).getVertexEdgePairs monoE [] [] := by
  refine ⟨by norm_num, ?_, ?_⟩ <;> with_unfolding_all decide

/-- Counterexample for claim C5: on the degenerate one-edge table whose
edge joins vertex 0 to itself, addVerticesFromEdges calls addVertex twice
for vertex 0, not exactly once. -/
theorem claim5_counterexample :
    (addVFECalls [((0 : ℤ), (0 : ℤ))]).count 0 = 2 := by
  decide

/-- Claim C5 as amended: addVerticesFromEdges performs its addVertex calls
in the order recorded by addVFECalls; vertex_to_min_edge is the least edge
row containing the vertex; and when no edge row repeats a vertex, each
vertex referenced by E gets exactly one addVertex call. -/
theorem claim5_amended :
    (∀ (g : HashGrid) (V0 V1 : List Vec3) (E : List (ℤ × ℤ)) (r : ℚ),
      (g.addVerticesFromEdges V0 V1 E r).vertexItems =
        (addVFECalls E).foldl
          (fun acc vi =>
            g.addVertexTo (vertexAt V0 vi) (vertexAt V1 vi) vi acc r)
          g.vertexItems) ∧
    (∀ (E : List (ℤ × ℤ)) (v : ℤ) (i : ℕ) (e : ℤ × ℤ),
      E[i]? = some e → (e.1 = v ∨ e.2 = v) → v2me E v ≤ i) ∧
    (∀ (E : List (ℤ × ℤ)) (v : ℤ),
      (∀ e ∈ E, e.1 ≠ e.2) →
      (∃ (i : ℕ) (e : ℤ × ℤ), E[i]? = some e ∧ (e.1 = v ∨ e.2 = v)) →
      (∃ e : ℤ × ℤ, E[v2me E v]? = some e ∧ (e.1 = v ∨ e.2 = v)) ∧
        (addVFECalls E).count v = 1) := by
  refine ⟨addVerticesFromEdges_eq_foldl, ?_, ?_⟩
  · intro E v i e hi hr
    exact v2me_le_hit hi hr
  intro E v hd href
  rcases href with ⟨i0, e0, hi0, hrow0⟩
  rcases v2me_hit hi0 hrow0 with ⟨erow, hm, hrowm⟩
  refine ⟨⟨erow, hm, hrowm⟩, ?_⟩
  have h0 : E[v2me E v - 0]? = some erow := by simpa using hm
  exact addVFECallsAux_count_one E v E 0 erow (Nat.zero_le _) hd h0 hrowm

/-- Witness for claim C5 on the table with edges (1, 2) and (2, 3): vertex
2 appears in both edges but is added exactly once, from edge 0. -/
theorem claim5_amended_witness :
    (∃ e, ([((1 : ℤ), (2 : ℤ)), ((2 : ℤ), (3 : ℤ))])[
        v2me [((1 : ℤ), (2 : ℤ)), ((2 : ℤ), (3 : ℤ))] 2]? = some e ∧
      (e.1 = 2 ∨ e.2 = 2)) ∧
    (addVFECalls [((1 : ℤ), (2 : ℤ)), ((2 : ℤ), (3 : ℤ))]).count 2 = 1 :=
  claim5_amended.2.2 [((1 : ℤ), (2 : ℤ)), ((2 : ℤ), (3 : ℤ))] 2 (by decide)
    ⟨0, (1, 2), by decide, Or.inr rfl⟩

/-- Counterexample for claim C8: the resize precondition check accepts the
negative cell size -1, so it does not fail for every cellSize at most 0. -/
theorem claim8_counterexample :
    ((-1 : ℚ) ≤ 0) ∧ resizeCheck (-1) = true := by
  refine ⟨by norm_num, ?_⟩
  with_unfolding_all decide

/-- Claim C8 as amended: the precondition check of resize fails exactly
when cellSize equals 0; for every non-zero cellSize (in particular every
positive one) it passes and resize records the domain, the cell size, the
per-axis grid sizes max(1, ceil((max - min) / cellSize)), and clears the
buckets. -/
theorem claim8_amended :
    (∀ c : ℚ, resizeCheck c = false ↔ c = 0) ∧
    (∀ (g : HashGrid) (mn mx : Vec3) (c : ℚ), c ≠ 0 →
      resizeCheck c = true ∧
      (g.resize mn mx c).cellSize = c ∧
      (g.resize mn mx c).domainMin = mn ∧
      (g.resize mn mx c).domainMax = mx ∧
      (g.resize mn mx c).gx = max ⌈(mx.x - mn.x) / c⌉ 1 ∧
      (g.resize mn mx c).gy = max ⌈(mx.y - mn.y) / c⌉ 1 ∧
      (g.resize mn mx c).vertexItems = [] ∧
      (g.resize mn mx c).edgeItems = [] ∧
      (g.resize mn mx c).faceItems = []) := by
  constructor
  · intro c
    simp [resizeCheck]
  · intro g mn mx c hc
    refine ⟨by simp [resizeCheck, hc], rfl, rfl, rfl, rfl, rfl, rfl, rfl, rfl⟩

/-- Witness for claim C8 at cellSize 1. -/
theorem claim8_amended_witness :
    resizeCheck 1 = true ∧
      (baseGrid2D.resize ⟨0, 0, 0⟩ ⟨1, 1, 0⟩ 1).cellSize = 1 :=
  ⟨(claim8_amended.2 baseGrid2D ⟨0, 0, 0⟩ ⟨1, 1, 0⟩ 1 (by norm_num)).1,
   (claim8_amended.2 baseGrid2D ⟨0, 0, 0⟩ ⟨1, 1, 0⟩ 1 (by norm_num)).2.1⟩

/-- Counterexample for claim C10: a grid of 2 to the 30th by 2 by 1 cells
has cell count above 2 to the 31st minus 1, yet its stored keys are still
exact and collision-free, so exactness does not hold only when the count
is at most 2 to the 31st minus 1. -/
theorem claim10_counterexample :
    ((2 : ℤ) ^ 31 - 1 < wideGrid.gx * wideGrid.gy * wideGrid.gz) ∧
    exactCellKeys wideGrid ∧ injectiveCellKeys wideGrid := by
  refine ⟨?_, ?_, ?_⟩
  · show (2 : ℤ) ^ 31 - 1 < 2 ^ 30 * 2 * 1
    norm_num
  · exact exactCellKeys_of_le (by show (2 : ℤ) ^ 30 * 2 * 1 ≤ 2 ^ 31; norm_num)
  · exact injectiveCellKeys_of_le
      (by show (2 : ℤ) ^ 30 * 2 * 1 ≤ 2 ^ 31; norm_num)

/-- Claim C10 as amended: every hash item emitted by addElement stores as
key the 32-bit signed reduction of the cell hash; that reduction lies in
the signed 32-bit range and differs from the hash by a multiple of 2 to
the 32nd; and whenever the cell count is at most 2 to the 31st the stored
keys are exact, collision-free cell encodings. -/
theorem claim10_amended :
    (∀ (g : HashGrid) (aabb : AABB) (id : ℤ) (items : List HashItem)
        (it : HashItem), it ∈ g.addElement aabb id items →
      it ∈ items ∨ ∃ x y z : ℤ, it.key = toInt32 (g.hash x y z)) ∧
    (∀ n : ℤ, -2 ^ 31 ≤ toInt32 n ∧ toInt32 n < 2 ^ 31 ∧
      (2 ^ 32 : ℤ) ∣ n - toInt32 n) ∧
    (∀ g : HashGrid, g.gx * g.gy * g.gz ≤ 2 ^ 31 →
      exactCellKeys g ∧ injectiveCellKeys g) := by
  refine ⟨fun g aabb id items it h => addElement_key h, ?_, ?_⟩
  · intro n
    exact ⟨(toInt32_range n).1, (toInt32_range n).2, toInt32_dvd_sub n⟩
  · intro g hp
    exact ⟨exactCellKeys_of_le hp, injectiveCellKeys_of_le hp⟩

/-- Witness for claim C10: the single item emitted by addElement on the
one-cell witness grid stores the 32-bit reduction of a cell hash, and the
small 3 by 4 by 5 grid has exact, collision-free keys. -/
theorem claim10_amended_witness :
    (∃ x y z : ℤ, (⟨toInt32 0, 7, witBox⟩ : HashItem).key =
      toInt32 (witGrid.hash x y z)) ∧
    (exactCellKeys smallGrid3D ∧ injectiveCellKeys smallGrid3D) := by
  constructor
  · have h := claim10_amended.1 witGrid witBox 7 [] ⟨toInt32 0, 7, witBox⟩
      (by with_unfolding_all decide)
    exact h.resolve_left (by decide)
  · exact claim10_amended.2.2 smallGrid3D
      (by show (3 : ℤ) * 4 * 5 ≤ 2 ^ 31; norm_num)
